import Mathlib

/-!
Verification development for the deno-embed repository: a build-time writer
that embeds static files into generated TypeScript modules (gzip-or-raw
selection, base64 encoding, 120-column wrapping, path normalization and
collision detection) and a runtime store / file server that lazily decodes
those records and answers HTTP requests with conditional-GET semantics.

Machine integers of the source are modelled as `Nat` (byte values carry
explicit `< 256` bounds where they matter); byte buffers are `List Nat`;
JavaScript strings are Lean `String`s; thrown exceptions are `Except`;
external platform functions (gzip, `TextDecoder`, `decodeURIComponent`,
date parsing/formatting, MIME lookup) are parameters of the definitions
that call them.
-/

/-! ## Base64 (model of the std encoding used by the writer and the loader)

The writer calls `encodeBase64` on the selected byte buffer and then
hard-wraps the result by `encoded.replaceAll(/.{120}/g, (it) => it + "\n")`;
the generated module stores the string with a leading newline.  At load
time the `File` constructor calls `decodeBase64`, whose underlying `atob`
implements forgiving-base64: ASCII whitespace is stripped, then up to two
trailing padding characters are removed (when the length is a multiple of
four), and the remaining characters are decoded in groups of four. -/

/-- The 64-character base64 alphabet, in value order. -/
def b64Alphabet : List Char :=
  [ 'A', 'B', 'C', 'D', 'E', 'F', 'G', 'H', 'I', 'J', 'K', 'L', 'M',
    'N', 'O', 'P', 'Q', 'R', 'S', 'T', 'U', 'V', 'W', 'X', 'Y', 'Z',
    'a', 'b', 'c', 'd', 'e', 'f', 'g', 'h', 'i', 'j', 'k', 'l', 'm',
    'n', 'o', 'p', 'q', 'r', 's', 't', 'u', 'v', 'w', 'x', 'y', 'z',
    '0', '1', '2', '3', '4', '5', '6', '7', '8', '9', '+', '/' ]

/-- Character for a 6-bit value. -/
def b64Char (n : Nat) : Char := b64Alphabet.getD n 'A'

/-- Value of an alphabet character, `none` for anything else. -/
def b64Value (c : Char) : Option Nat :=
  go b64Alphabet 0
where
  go : List Char → Nat → Option Nat
    | [], _ => none
    | x :: xs, i => if x = c then some i else go xs (i + 1)

/-- Standard base64 encoding of a byte buffer, with padding
(model of the std `encodeBase64`). -/
def encodeBase64 : List Nat → List Char
  | [] => []
  | [a] => [b64Char (a / 4), b64Char (a % 4 * 16), '=', '=']
  | [a, b] => [b64Char (a / 4), b64Char (a % 4 * 16 + b / 16), b64Char (b % 16 * 4), '=']
  | a :: b :: c :: rest =>
      b64Char (a / 4) :: b64Char (a % 4 * 16 + b / 16) ::
      b64Char (b % 16 * 4 + c / 64) :: b64Char (c % 64) :: encodeBase64 rest

/-- ASCII whitespace stripped by forgiving-base64 decoding. -/
def isB64Ws (c : Char) : Bool :=
  c = ' ' || c = '\t' || c = '\n' || c = '\r' || c = '\x0c'

/-- Remove ASCII whitespace (first step of forgiving-base64). -/
def stripWs (l : List Char) : List Char := l.filter (fun c => !isB64Ws c)

/-- Remove up to two trailing padding characters. -/
def dropB64Padding : List Char → List Char
  | [] => []
  | [c] => if c = '=' then [] else [c]
  | [c, d] => if d = '=' then (if c = '=' then [] else [c]) else [c, d]
  | c :: d :: e :: rest => c :: dropB64Padding (d :: e :: rest)

/-- Decode unpadded base64 characters in groups of four (a trailing group of
two or three characters yields one or two bytes); fails on a dangling single
character or any character outside the alphabet. -/
def decodeB64Groups : List Char → Option (List Nat)
  | [] => some []
  | [_] => none
  | [a, b] =>
      match b64Value a, b64Value b with
      | some va, some vb => some [va * 4 + vb / 16]
      | _, _ => none
  | [a, b, c] =>
      match b64Value a, b64Value b, b64Value c with
      | some va, some vb, some vc => some [va * 4 + vb / 16, vb % 16 * 16 + vc / 4]
      | _, _, _ => none
  | a :: b :: c :: d :: rest =>
      match b64Value a, b64Value b, b64Value c, b64Value d, decodeB64Groups rest with
      | some va, some vb, some vc, some vd, some tail =>
          some ((va * 4 + vb / 16) :: (vb % 16 * 16 + vc / 4) :: (vc % 4 * 64 + vd) :: tail)
      | _, _, _, _, _ => none

/-- Forgiving-base64 decoding as performed by `decodeBase64`/`atob` at load
time: strip whitespace, drop padding when the length is a multiple of four,
reject a length of one modulo four, decode the groups. -/
def decodeBase64M (s : List Char) : Option (List Nat) :=
  let t := stripWs s
  let t2 := if t.length % 4 = 0 then dropB64Padding t else t
  if t2.length % 4 = 1 then none else decodeB64Groups t2

/-- Hard-wrap at 120 columns, fuel-driven model of
`encoded.replaceAll(/.{120}/g, (it) => it + "\n")`: a newline is inserted
after every complete 120-character run.  The fuel `l.length` is enough for
every round since each round consumes 120 characters. -/
def wrapGo : Nat → List Char → List Char
  | 0, l => l
  | fuel + 1, l =>
      if l.length < 120 then l
      else l.take 120 ++ '\n' :: wrapGo fuel (l.drop 120)

/-- Hard-wrap a base64 string at 120 columns. -/
def wrapChars (l : List Char) : List Char := wrapGo l.length l

/-! ### Base64 round-trip lemmas -/

theorem b64Alphabet_length : b64Alphabet.length = 64 := rfl

theorem b64Value_b64Char (n : Nat) (h : n < 64) : b64Value (b64Char n) = some n := by
  have key : ∀ m : Fin 64, b64Value (b64Char m.1) = some m.1 := by decide
  exact key ⟨n, h⟩

theorem b64Char_not_ws (n : Nat) : isB64Ws (b64Char n) = false := by
  by_cases h : n < 64
  · have key : ∀ m : Fin 64, isB64Ws (b64Char m.1) = false := by decide
    exact key ⟨n, h⟩
  · have hd : b64Char n = 'A' := by
      unfold b64Char
      apply List.getD_eq_default
      rw [b64Alphabet_length]
      omega
    rw [hd]; decide

theorem b64Char_ne_pad (n : Nat) : b64Char n ≠ '=' := by
  by_cases h : n < 64
  · have key : ∀ m : Fin 64, b64Char m.1 ≠ '=' := by decide
    exact key ⟨n, h⟩
  · have hd : b64Char n = 'A' := by
      unfold b64Char
      apply List.getD_eq_default
      rw [b64Alphabet_length]
      omega
    rw [hd]; decide

theorem mem_encodeBase64 : ∀ (l : List Nat), ∀ c ∈ encodeBase64 l,
    (∃ n, c = b64Char n) ∨ c = '='
  | [], c => by simp [encodeBase64]
  | [a], c => by
      intro hc
      simp only [encodeBase64, List.mem_cons, List.not_mem_nil, or_false] at hc
      rcases hc with rfl | rfl | rfl | rfl
      · exact Or.inl ⟨_, rfl⟩
      · exact Or.inl ⟨_, rfl⟩
      · exact Or.inr rfl
      · exact Or.inr rfl
  | [a, b], c => by
      intro hc
      simp only [encodeBase64, List.mem_cons, List.not_mem_nil, or_false] at hc
      rcases hc with rfl | rfl | rfl | rfl
      · exact Or.inl ⟨_, rfl⟩
      · exact Or.inl ⟨_, rfl⟩
      · exact Or.inl ⟨_, rfl⟩
      · exact Or.inr rfl
  | a :: b :: c' :: rest, c => by
      intro hc
      simp only [encodeBase64, List.mem_cons] at hc
      rcases hc with rfl | rfl | rfl | rfl | hmem
      · exact Or.inl ⟨_, rfl⟩
      · exact Or.inl ⟨_, rfl⟩
      · exact Or.inl ⟨_, rfl⟩
      · exact Or.inl ⟨_, rfl⟩
      · exact mem_encodeBase64 rest c hmem

theorem length_encodeBase64 : ∀ (l : List Nat),
    (encodeBase64 l).length % 4 = 0 ∧ (l ≠ [] → 4 ≤ (encodeBase64 l).length)
  | [] => by simp [encodeBase64]
  | [a] => by simp [encodeBase64]
  | [a, b] => by simp [encodeBase64]
  | a :: b :: c :: rest => by
      have ih := length_encodeBase64 rest
      simp only [encodeBase64, List.length_cons]
      omega

theorem stripWs_encode (l : List Nat) : stripWs (encodeBase64 l) = encodeBase64 l := by
  rw [stripWs, List.filter_eq_self]
  intro c hc
  rcases mem_encodeBase64 l c hc with ⟨n, rfl⟩ | rfl
  · simp [b64Char_not_ws]
  · decide

theorem stripWs_wrapGo : ∀ (fuel : Nat) (l : List Char), stripWs (wrapGo fuel l) = stripWs l
  | 0, _ => rfl
  | fuel + 1, l => by
      rw [wrapGo]
      split
      · rfl
      · have ih := stripWs_wrapGo fuel (l.drop 120)
        simp only [stripWs] at ih ⊢
        rw [List.filter_append, List.filter_cons]
        simp only [show (!isB64Ws '\n') = false by decide, Bool.false_eq_true, if_false, ih]
        rw [← List.filter_append, List.take_append_drop]

theorem stripWs_wrapChars (l : List Char) : stripWs (wrapChars l) = stripWs l :=
  stripWs_wrapGo l.length l

theorem dropB64Padding_append (l E : List Char) (hE : 2 ≤ E.length) :
    dropB64Padding (l ++ E) = l ++ dropB64Padding E := by
  induction l with
  | nil => simp
  | cons c l ih =>
      cases hle : l ++ E with
      | nil =>
          rcases List.append_eq_nil.mp hle with ⟨rfl, rfl⟩
          simp at hE
      | cons d t =>
          cases t with
          | nil =>
              exfalso
              have hlen := congrArg List.length hle
              simp only [List.length_append, List.length_cons, List.length_nil] at hlen
              omega
          | cons e rest =>
              calc dropB64Padding (c :: l ++ E)
                  = dropB64Padding (c :: d :: e :: rest) := by rw [List.cons_append, hle]
                _ = c :: dropB64Padding (d :: e :: rest) := rfl
                _ = c :: dropB64Padding (l ++ E) := by rw [hle]
                _ = c :: (l ++ dropB64Padding E) := by rw [ih]
                _ = c :: l ++ dropB64Padding E := by simp

theorem dropB64Padding_length : ∀ (l : List Char),
    l.length - 2 ≤ (dropB64Padding l).length ∧ (dropB64Padding l).length ≤ l.length
  | [] => by simp [dropB64Padding]
  | [c] => by by_cases h : c = '=' <;> simp [dropB64Padding, h]
  | [c, d] => by
      by_cases h1 : d = '=' <;> by_cases h2 : c = '=' <;>
        simp [dropB64Padding, h1, h2]
  | c :: d :: e :: rest => by
      have ih := dropB64Padding_length (d :: e :: rest)
      simp only [dropB64Padding, List.length_cons] at ih ⊢
      omega

theorem decodeGroups_encode : ∀ (l : List Nat), (∀ x ∈ l, x < 256) →
    decodeB64Groups (dropB64Padding (encodeBase64 l)) = some l
  | [], _ => rfl
  | [a], h => by
      have ha : a < 256 := h a (by simp)
      have h1 : a / 4 < 64 := by omega
      have h2 : a % 4 * 16 < 64 := by omega
      have hb : a / 4 * 4 + a % 4 * 16 / 16 = a := by omega
      show decodeB64Groups
        (dropB64Padding [b64Char (a / 4), b64Char (a % 4 * 16), '=', '=']) = some [a]
      rw [show dropB64Padding [b64Char (a / 4), b64Char (a % 4 * 16), '=', '='] =
        [b64Char (a / 4), b64Char (a % 4 * 16)] from rfl]
      simp [decodeB64Groups, b64Value_b64Char _ h1, b64Value_b64Char _ h2, hb]
      omega
  | [a, b], h => by
      have ha : a < 256 := h a (by simp)
      have hb : b < 256 := h b (by simp)
      have h1 : a / 4 < 64 := by omega
      have h2 : a % 4 * 16 + b / 16 < 64 := by omega
      have h3 : b % 16 * 4 < 64 := by omega
      have e1 : a / 4 * 4 + (a % 4 * 16 + b / 16) / 16 = a := by omega
      have e2 : (a % 4 * 16 + b / 16) % 16 * 16 + b % 16 * 4 / 4 = b := by omega
      show decodeB64Groups (dropB64Padding
        [b64Char (a / 4), b64Char (a % 4 * 16 + b / 16), b64Char (b % 16 * 4), '=']) =
        some [a, b]
      rw [show dropB64Padding
        [b64Char (a / 4), b64Char (a % 4 * 16 + b / 16), b64Char (b % 16 * 4), '='] =
        b64Char (a / 4) :: b64Char (a % 4 * 16 + b / 16) ::
          dropB64Padding [b64Char (b % 16 * 4), '='] from rfl]
      rw [show dropB64Padding [b64Char (b % 16 * 4), '='] = [b64Char (b % 16 * 4)] by
        simp [dropB64Padding, b64Char_ne_pad]]
      simp [decodeB64Groups, b64Value_b64Char _ h1, b64Value_b64Char _ h2,
        b64Value_b64Char _ h3, e1, e2]
      omega
  | a :: b :: c :: rest, h => by
      have ha : a < 256 := h a (by simp)
      have hb : b < 256 := h b (by simp)
      have hc : c < 256 := h c (by simp)
      have ih := decodeGroups_encode rest (fun x hx => h x (by simp [hx]))
      have h1 : a / 4 < 64 := by omega
      have h2 : a % 4 * 16 + b / 16 < 64 := by omega
      have h3 : b % 16 * 4 + c / 64 < 64 := by omega
      have h4 : c % 64 < 64 := by omega
      have e1 : a / 4 * 4 + (a % 4 * 16 + b / 16) / 16 = a := by omega
      have e2 : (a % 4 * 16 + b / 16) % 16 * 16 + (b % 16 * 4 + c / 64) / 4 = b := by omega
      have e3 : (b % 16 * 4 + c / 64) % 4 * 64 + c % 64 = c := by omega
      by_cases hr : rest = []
      · subst hr
        show decodeB64Groups (dropB64Padding
          [b64Char (a / 4), b64Char (a % 4 * 16 + b / 16),
           b64Char (b % 16 * 4 + c / 64), b64Char (c % 64)]) = some [a, b, c]
        rw [show dropB64Padding
          [b64Char (a / 4), b64Char (a % 4 * 16 + b / 16),
           b64Char (b % 16 * 4 + c / 64), b64Char (c % 64)] =
          b64Char (a / 4) :: b64Char (a % 4 * 16 + b / 16) ::
            dropB64Padding [b64Char (b % 16 * 4 + c / 64), b64Char (c % 64)] from rfl]
        rw [show dropB64Padding [b64Char (b % 16 * 4 + c / 64), b64Char (c % 64)] =
          [b64Char (b % 16 * 4 + c / 64), b64Char (c % 64)] by
          simp [dropB64Padding, b64Char_ne_pad]]
        simp [decodeB64Groups, b64Value_b64Char _ h1, b64Value_b64Char _ h2,
          b64Value_b64Char _ h3, b64Value_b64Char _ h4, e1, e2, e3]
      · have hlen := (length_encodeBase64 rest).2 hr
        have hE2 : 2 ≤ (encodeBase64 rest).length := by omega
        have hsplit : dropB64Padding (encodeBase64 (a :: b :: c :: rest)) =
            b64Char (a / 4) :: b64Char (a % 4 * 16 + b / 16) ::
            b64Char (b % 16 * 4 + c / 64) :: b64Char (c % 64) ::
            dropB64Padding (encodeBase64 rest) := by
          have := dropB64Padding_append
            [b64Char (a / 4), b64Char (a % 4 * 16 + b / 16),
             b64Char (b % 16 * 4 + c / 64), b64Char (c % 64)]
            (encodeBase64 rest) hE2
          simpa [encodeBase64] using this
        rw [hsplit]
        simp [decodeB64Groups, b64Value_b64Char _ h1, b64Value_b64Char _ h2,
          b64Value_b64Char _ h3, b64Value_b64Char _ h4, ih, e1, e2, e3]

theorem decodeBase64M_stripWs_congr (s1 s2 : List Char) (h : stripWs s1 = stripWs s2) :
    decodeBase64M s1 = decodeBase64M s2 := by
  unfold decodeBase64M
  rw [h]

theorem decodeBase64M_encode_plain (l : List Nat) (h : ∀ x ∈ l, x < 256) :
    decodeBase64M (encodeBase64 l) = some l := by
  have h4 : (encodeBase64 l).length % 4 = 0 := (length_encodeBase64 l).1
  have hdl := dropB64Padding_length (encodeBase64 l)
  show (if (if (stripWs (encodeBase64 l)).length % 4 = 0
            then dropB64Padding (stripWs (encodeBase64 l))
            else stripWs (encodeBase64 l)).length % 4 = 1
        then none
        else decodeB64Groups
          (if (stripWs (encodeBase64 l)).length % 4 = 0
           then dropB64Padding (stripWs (encodeBase64 l))
           else stripWs (encodeBase64 l))) = some l
  rw [stripWs_encode, if_pos h4, if_neg (by omega)]
  exact decodeGroups_encode l h

theorem decodeBase64M_encode_wrapped (l : List Nat) (h : ∀ x ∈ l, x < 256) :
    decodeBase64M ('\n' :: wrapChars (encodeBase64 l)) = some l := by
  have hws : stripWs ('\n' :: wrapChars (encodeBase64 l)) = stripWs (encodeBase64 l) := by
    rw [stripWs, List.filter_cons]
    simp only [show (!isB64Ws '\n') = false by decide, Bool.false_eq_true, if_false]
    exact stripWs_wrapChars (encodeBase64 l)
  rw [decodeBase64M_stripWs_congr _ _ hws]
  exact decodeBase64M_encode_plain l h

/-! ## Build-time writer (`EmbedWriter`, `StaticConverter`)

Absolute POSIX paths are modelled as their segment lists below the
filesystem root; the destination directory of an `EmbedWriter` is such a
list whose segments are plain (nonempty, not a dot or dot-dot), matching the
class's requirement of an absolute, normalized destination.  The gzip
compressor (`CompressionStream`) is an external platform codec and is a
function parameter. -/

/-- Record emitted into a generated file module.  The writer renders only
`size`, an optional `compression` tag and the wrapped base64 `encoded`
payload (with its leading newline from the template literal); the runtime
`FileMeta` interface additionally declares the cache validators, which are
therefore absent (`none`) in every generated record. -/
structure FileMetaM where
  size : Nat
  encoded : List Char
  compression : Option String := none
  eTag : Option String := none
  atime : Option Int := none
  mtime : Option Int := none
deriving DecidableEq

/-- The fixed compression-gain threshold `minCompressionGainBytes`. -/
def minCompressionGainBytes : Int := 200

/-- Content encoding of `EmbedWriter.writeFile`: always compute the gzip
candidate, select it iff the byte gain reaches the threshold, base64-encode
the selected buffer and hard-wrap it at 120 columns; `size` is always the
raw length. -/
def writeFileMeta (compressFn : List Nat → List Nat) (data : List Nat) : FileMetaM :=
  let compressed := compressFn data
  let gain : Int := (data.length : Int) - (compressed.length : Int)
  { size := data.length
  , encoded := '\n' :: wrapChars (encodeBase64
      (if minCompressionGainBytes ≤ gain then compressed else data))
  , compression := if minCompressionGainBytes ≤ gain then some "gzip" else none }

/-- Split a character list at a separator; separators at the ends or
doubled separators produce empty pieces. -/
def splitSegsGo (sep : Char) (cur : List Char) : List Char → List String
  | [] => [String.mk cur.reverse]
  | c :: rest =>
      if c = sep then String.mk cur.reverse :: splitSegsGo sep [] rest
      else splitSegsGo sep (c :: cur) rest

/-- Split a string at a separator character. -/
def splitChar (sep : Char) (s : String) : List String := splitSegsGo sep [] s.toList

/-- Segments of a path string at the POSIX separator. -/
def splitSlash (s : String) : List String := splitChar '/' s

/-- Prefix test on strings by their character lists. -/
def strStartsWith (s pre : String) : Bool := pre.toList.isPrefixOf s.toList

/-- Normalization of a segment sequence into an absolute path, as the path
library's resolve performs it: empty and dot segments vanish, a dot-dot
segment pops the previous one and cannot climb above the root. -/
def normalizeSegs (segs : List String) : List String :=
  segs.foldl
    (fun acc seg =>
      if seg = "" ∨ seg = "." then acc
      else if seg = ".." then acc.dropLast
      else acc ++ [seg]) []

/-- Model of `path.resolve(destDir, filePath)`: an absolute path stands
alone, a relative one is appended to the destination, then normalized. -/
def resolveCandidate (destDir : List String) (filePath : String) : List String :=
  if strStartsWith filePath "/" then normalizeSegs (splitSlash filePath)
  else normalizeSegs (destDir ++ splitSlash filePath)

/-- Walk `dirname` upward (drop the final segment) until the path is no
longer than the target segment count; the fuel bounds the loop. -/
def stripGo : Nat → Nat → List String → List String
  | 0, _, child => child
  | fuel + 1, n, child =>
      if n < child.length then stripGo fuel n child.dropLast else child

/-- Model of the source's `parentChild`: `child` is a strict descendant of
`parent` when walking `dirname` up from `child` reaches `parent` (equal
paths do not count).  The source loops on string lengths of normalized
absolute paths; on segment lists the same loop runs on segment counts. -/
def parentChild (parent child : List String) : Bool :=
  if child.length ≤ parent.length then false
  else stripGo child.length parent.length child == parent

/-- Collapse each run of spaces to a single underscore, the model of
`replaceAll(/[ ]+/g, "_")`; the flag records whether the previous character
belonged to a space run. -/
def collapseSpacesGo (prevSpace : Bool) : List Char → List Char
  | [] => []
  | c :: rest =>
      if c = ' ' then
        if prevSpace then collapseSpacesGo true rest
        else '_' :: collapseSpacesGo true rest
      else c :: collapseSpacesGo false rest

/-- Escape the special declaration-file suffix, the model of
`replaceAll(".d.ts", ".d_ts")`: left-to-right, non-overlapping. -/
def replaceDts : List Char → List Char
  | '.' :: 'd' :: '.' :: 't' :: 's' :: rest =>
      '.' :: 'd' :: '_' :: 't' :: 's' :: replaceDts rest
  | c :: rest => c :: replaceDts rest
  | [] => []

/-- Segmentwise name normalization of `#addFile` (spaces, then the
declaration-file suffix).  Neither replaced pattern contains a separator,
so the source's whole-string replacements distribute over the slash-joined
relative path and act on each segment independently. -/
def normalizeName (s : String) : String :=
  String.mk (replaceDts (collapseSpacesGo false s.toList))

/-- Join segments with the POSIX separator. -/
def joinSegs : List String → String
  | [] => ""
  | [s] => s
  | s :: rest => s ++ "/" ++ joinSegs rest

/-- Build-time fatal errors, carrying the data the thrown messages report. -/
inductive WriteError
  | unsafeOutputPath (candidate : List String) (destDir : List String)
  | nameCollision (firstOriginal : String) (secondOriginal : String) (onDisk : List String)
deriving DecidableEq

/-- The path record built by `#addFile`. -/
structure FilePaths where
  original : String
  relative : String
  importPath : String
  onDisk : List String
deriving DecidableEq

/-- The path computation of `EmbedWriter.#addFile` up to the collision
check: resolve the candidate, require a strict descendant of the
destination root (else throw), compute the forward-slash relative path,
normalize the name, underscore-prefix the base name and append the
generated-source extension. -/
def computeFilePaths (destDir : List String) (filePath : String) :
    Except WriteError FilePaths :=
  let absPath := resolveCandidate destDir filePath
  if parentChild destDir absPath then
    let relSegs := absPath.drop destDir.length
    let mapped := relSegs.map normalizeName
    let base := (mapped.getLast?).getD ""
    let normalizedSegs := mapped.dropLast ++ ["_" ++ base ++ ".ts"]
    .ok { original := filePath
        , relative := joinSegs relSegs
        , importPath := "./" ++ joinSegs normalizedSegs
        , onDisk := destDir ++ normalizedSegs }
  else .error (.unsafeOutputPath absPath destDir)

/-- Mutable writer state: the collision table `#files` keyed by on-disk
path, plus the log of generated modules actually written to disk. -/
structure WriterState where
  destDir : List String
  files : List FilePaths := []
  written : List (List String × FileMetaM) := []
deriving DecidableEq

/-- `EmbedWriter.#addFile`: compute the paths, fail fatally on a collision
with the running table (reporting both original inputs), otherwise record
the entry. -/
def addFile (st : WriterState) (filePath : String) :
    Except WriteError (WriterState × FilePaths) :=
  match computeFilePaths st.destDir filePath with
  | .error e => .error e
  | .ok fp =>
      match st.files.find? (fun e => e.onDisk == fp.onDisk) with
      | some existing => .error (.nameCollision existing.original fp.original fp.onDisk)
      | none => .ok ({ st with files := st.files ++ [fp] }, fp)

/-- `EmbedWriter.writeFile`: encode the data, place the path, then write the
generated module to disk; a placement error propagates out before anything
is written for this entry. -/
def writeFile (compressFn : List Nat → List Nat) (st : WriterState)
    (filePath : String) (data : List Nat) : WriterState × Option WriteError :=
  let meta := writeFileMeta compressFn data
  match addFile st filePath with
  | .error e => (st, some e)
  | .ok (st1, fp) => ({ st1 with written := st1.written ++ [(fp.onDisk, meta)] }, none)

/-- The conversion loop of `StaticConverter.convert`: sequential over the
walked entries, aborting at the first fatal error (in which case `writeDir`
never runs and the registry is not emitted). -/
def convertGo (compressFn : List Nat → List Nat) (st : WriterState) :
    List (String × List Nat) → WriterState × Option WriteError
  | [] => (st, none)
  | (p, d) :: rest =>
      match writeFile compressFn st p d with
      | (st1, none) => convertGo compressFn st1 rest
      | (st1, some e) => (st1, some e)

/-- A fresh generation run: cleaned state, then convert every entry. -/
def convertRun (compressFn : List Nat → List Nat) (destDir : List String)
    (entries : List (String × List Nat)) : WriterState × Option WriteError :=
  convertGo compressFn { destDir := destDir } entries

/-! ### Path-guard lemmas -/

theorem stripGo_take : ∀ (fuel n : Nat) (child : List String),
    n ≤ child.length → child.length ≤ n + fuel → stripGo fuel n child = child.take n
  | 0, n, child => by
      intro h1 h2
      have hn : n = child.length := by omega
      subst hn
      simp [stripGo, List.take_length]
  | fuel + 1, n, child => by
      intro h1 h2
      rw [stripGo]
      by_cases hlt : n < child.length
      · rw [if_pos hlt]
        have hdl : child.dropLast.length = child.length - 1 := List.length_dropLast child
        rw [stripGo_take fuel n child.dropLast (by omega) (by omega)]
        rw [List.dropLast_eq_take, List.take_take]
        congr 1
        omega
      · rw [if_neg hlt]
        have : child.length ≤ n := by omega
        rw [List.take_of_length_le this]

theorem parentChild_true_iff (p c : List String) :
    parentChild p c = true ↔ p.length < c.length ∧ c.take p.length = p := by
  unfold parentChild
  by_cases h : c.length ≤ p.length
  · simp [h]
  · rw [if_neg h]
    rw [stripGo_take c.length p.length c (by omega) (by omega)]
    simp
    intro
    omega

theorem parentChild_append (p e : List String) (he : e ≠ []) :
    parentChild p (p ++ e) = true := by
  rw [parentChild_true_iff]
  constructor
  · have : 0 < e.length := List.length_pos.mpr he
    simp
    omega
  · exact List.take_left p e

theorem parentChild_extra (p c : List String) (h : parentChild p c = true) :
    ∃ extra, extra ≠ [] ∧ c = p ++ extra := by
  rw [parentChild_true_iff] at h
  refine ⟨c.drop p.length, ?_, ?_⟩
  · have : 0 < (c.drop p.length).length := by
      rw [List.length_drop]
      omega
    exact List.length_pos.mp this
  · conv_lhs => rw [← List.take_append_drop p.length c]
    rw [h.2]

theorem computeFilePaths_ok (d : List String) (p : String) (fp : FilePaths)
    (h : computeFilePaths d p = .ok fp) :
    fp.original = p ∧ ∃ ns, ns ≠ [] ∧ fp.onDisk = d ++ ns := by
  unfold computeFilePaths at h
  by_cases hpc : parentChild d (resolveCandidate d p) = true
  · rw [if_pos hpc] at h
    simp only [Except.ok.injEq] at h
    subst h
    refine ⟨rfl, _, ?_, rfl⟩
    simp
  · rw [if_neg hpc] at h
    simp at h

theorem find?_append_none {α : Type} (l1 l2 : List α) (q : α → Bool)
    (h : l1.find? q = none) : (l1 ++ l2).find? q = l2.find? q := by
  rw [List.find?_append, h, Option.none_or]

/-- C2: for every relative input path placed by `#addFile` under the
destination root, the returned on-disk path is a strict descendant of the
root (the source's own `parentChild` predicate holds, and the path extends
the root by at least one segment); and any path whose resolved candidate is
not a strict descendant — such as `"../x"` — fails fatally with the
unsafe-output-path error, recording nothing. -/
theorem addFile_containment (st st1 : WriterState) (filePath : String) (fp : FilePaths) :
    (addFile st filePath = .ok (st1, fp) →
      parentChild st.destDir fp.onDisk = true ∧
      ∃ extra, extra ≠ [] ∧ fp.onDisk = st.destDir ++ extra) ∧
    (parentChild st.destDir (resolveCandidate st.destDir filePath) = false →
      addFile st filePath =
        .error (.unsafeOutputPath (resolveCandidate st.destDir filePath) st.destDir) ∧
      ∀ compressFn data, writeFile compressFn st filePath data =
        (st, some (.unsafeOutputPath (resolveCandidate st.destDir filePath) st.destDir))) := by
  have herr : parentChild st.destDir (resolveCandidate st.destDir filePath) = false →
      addFile st filePath =
        .error (.unsafeOutputPath (resolveCandidate st.destDir filePath) st.destDir) := by
    intro hpc
    simp [addFile, computeFilePaths, hpc]
  constructor
  · intro h
    cases hcf : computeFilePaths st.destDir filePath with
    | error e => simp [addFile, hcf] at h
    | ok fp2 =>
        cases hf : st.files.find? (fun e => e.onDisk == fp2.onDisk) with
        | some ex => simp [addFile, hcf, hf] at h
        | none =>
            simp only [addFile, hcf, hf, Except.ok.injEq, Prod.mk.injEq] at h
            obtain ⟨-, hfp⟩ := h
            subst hfp
            obtain ⟨horig, ns, hns, hod⟩ := computeFilePaths_ok _ _ _ hcf
            refine ⟨?_, ns, hns, hod⟩
            rw [hod]
            exact parentChild_append _ _ hns
  · intro hpc
    refine ⟨herr hpc, ?_⟩
    intro compressFn data
    unfold writeFile
    rw [herr hpc]

/-- Witness for C2 at concrete inputs: placing `"x"` under root `/d` puts it
at `/d/_x.ts`, a strict descendant; placing `"../x"` fails fatally. -/
theorem addFile_containment_witness :
    parentChild ["d"]
      ({ original := "x", relative := "x", importPath := "./_x.ts",
         onDisk := ["d", "_x.ts"] } : FilePaths).onDisk = true ∧
    addFile { destDir := ["d"] } "../x" =
      .error (.unsafeOutputPath ["x"] ["d"]) ∧
    writeFile (fun l => l) { destDir := ["d"] } "../x" [1] =
      ({ destDir := ["d"] }, some (.unsafeOutputPath ["x"] ["d"])) := by
  refine ⟨?_, ?_, ?_⟩
  · exact ((addFile_containment { destDir := ["d"] }
      { destDir := ["d"],
        files := [{ original := "x", relative := "x", importPath := "./_x.ts",
                    onDisk := ["d", "_x.ts"] }] }
      "x"
      { original := "x", relative := "x", importPath := "./_x.ts",
        onDisk := ["d", "_x.ts"] }).1 rfl).1
  · exact ((addFile_containment { destDir := ["d"] } { destDir := ["d"] } "../x"
      { original := "", relative := "", importPath := "", onDisk := [] }).2 rfl).1
  · exact ((addFile_containment { destDir := ["d"] } { destDir := ["d"] } "../x"
      { original := "", relative := "", importPath := "", onDisk := [] }).2 rfl).2
      (fun l => l) [1]

/-- C5 counterexample: in a run over the colliding inputs `"a b"` and
`"a_b"` (both normalize to `/d/_a_b.ts`), the run aborts with the collision
error naming both originals, but by then the first file's generated module
has already been written to the destination tree — so it is not the case
that neither colliding file is written. -/
theorem convertRun_collision_first_written :
    (convertRun (fun l => l) ["d"] [("a b", [49]), ("a_b", [50])]).2 =
      some (.nameCollision "a b" "a_b" ["d", "_a_b.ts"]) ∧
    (convertRun (fun l => l) ["d"] [("a b", [49]), ("a_b", [50])]).1.written.map Prod.fst =
      [["d", "_a_b.ts"]] :=
  ⟨by decide, by decide⟩

/-- C5 (amended): when two input paths normalize to the same on-disk
location, the second placement fails fatally with an error reporting both
original input paths and writes nothing further (the writer state is
unchanged by the failing call); the first file's module, however, was
already written to the destination tree by its own successful call. -/
theorem collision_second_write_fails
    (compressFn : List Nat → List Nat) (st : WriterState)
    (p1 p2 : String) (d1 d2 : List Nat) (fp1 fp2 : FilePaths) (st1 : WriterState)
    (h1 : computeFilePaths st.destDir p1 = .ok fp1)
    (h2 : computeFilePaths st.destDir p2 = .ok fp2)
    (hsame : fp2.onDisk = fp1.onDisk)
    (hfresh : st.files.find? (fun e => e.onDisk == fp1.onDisk) = none)
    (hw : writeFile compressFn st p1 d1 = (st1, none)) :
    writeFile compressFn st1 p2 d2 = (st1, some (.nameCollision p1 p2 fp2.onDisk)) ∧
    st1.written = st.written ++ [(fp1.onDisk, writeFileMeta compressFn d1)] := by
  obtain ⟨horig1, -⟩ := computeFilePaths_ok _ _ _ h1
  obtain ⟨horig2, -⟩ := computeFilePaths_ok _ _ _ h2
  have haf : addFile st p1 = .ok ({ st with files := st.files ++ [fp1] }, fp1) := by
    simp only [addFile, h1, hfresh]
  unfold writeFile at hw
  rw [haf] at hw
  simp only [Prod.mk.injEq] at hw
  obtain ⟨hst1, -⟩ := hw
  subst hst1
  refine ⟨?_, rfl⟩
  have haf2 : addFile
      { destDir := st.destDir
      , files := st.files ++ [fp1]
      , written := st.written ++ [(fp1.onDisk, writeFileMeta compressFn d1)] } p2 =
      .error (.nameCollision fp1.original fp2.original fp2.onDisk) := by
    simp only [addFile, h2]
    rw [hsame, find?_append_none st.files [fp1] _ hfresh]
    simp [List.find?]
  unfold writeFile
  rw [haf2, horig1, horig2]

/-! ## Runtime store (`File`, `Embeds`, src/embed.ts)

Operations carry an explicit trace of the decoding work they perform
(`base64Decode` for `decodeBase64` in the `File` constructor, `decompress`
for the `DecompressionStream` pipeline, `textDecode` for
`TextDecoder.decode`), so laziness and caching are visible facts of the
model.  The decompressor and the UTF-8 decoder are external platform
functions and appear as parameters. -/

/-- Decoding work observable at the store boundary. -/
inductive DecodeEffect
  | base64Decode
  | decompress
  | textDecode
deriving DecidableEq

/-- The private `#contents` record of a `File`: possibly-compressed bytes
plus the pending compression tag. -/
structure FileContents where
  bytes : List Nat
  compression : Option String
deriving DecidableEq

/-- Runtime `File` value: uncompressed size, contents, and the lazily
cached decoded text. -/
structure File where
  size : Nat
  contents : FileContents
  cachedText : Option String := none
deriving DecidableEq

/-- The `File` constructor: eagerly base64-decode the record's payload
(`none` models the thrown decoding error on malformed base64);
decompression is deferred. -/
def fileOfMeta (meta : FileMetaM) : Option (File × List DecodeEffect) :=
  (decodeBase64M meta.encoded).map (fun bs =>
    ({ size := meta.size
     , contents := { bytes := bs, compression := meta.compression } },
     [.base64Decode]))

/-- `File.bytes()`: decompress on first use (a nonempty tag is truthy in
the source's `if (compression)`), store the decompressed buffer back and
clear the tag, so later calls return the cached buffer with no further
work. -/
def File.bytes (decompressFn : String → List Nat → List Nat) (f : File) :
    List Nat × File × List DecodeEffect :=
  match f.contents.compression with
  | some tag =>
      if tag = "" then (f.contents.bytes, f, [])
      else
        let out := decompressFn tag f.contents.bytes
        (out, { f with contents := { bytes := out, compression := none } }, [.decompress])
  | none => (f.contents.bytes, f, [])

/-- `File.text()`: UTF-8 decode of `bytes()`, computed once and cached. -/
def File.text (decompressFn : String → List Nat → List Nat)
    (utf8Decode : List Nat → String) (f : File) :
    String × File × List DecodeEffect :=
  match f.cachedText with
  | some t => (t, f, [])
  | none =>
      let r := File.bytes decompressFn f
      let t := utf8Decode r.1
      (t, { r.2.1 with cachedText := some t }, r.2.2 ++ [.textDecode])

/-- The generated registry: relative-path keys mapped to their records (a
key's lazy importer resolves to the record; a missing key is an `undefined`
importer). -/
abbrev Embeds := List (String × FileMetaM)

/-- Property lookup on the registry object. -/
def lookupMeta (embeds : Embeds) (filePath : String) : Option FileMetaM :=
  (embeds.find? (fun e => e.1 == filePath)).map Prod.snd

/-- Runtime failures of the store and responder. -/
inductive RuntimeErr
  | typeErrorUndefinedCall
  | badBase64
  | uriError
deriving DecidableEq

/-- `Embeds.stat`: `null` for a missing key, otherwise the record's
metadata, without materializing decoded bytes — the effect trace is
always empty. -/
def Embeds.stat (embeds : Embeds) (filePath : String) :
    Option FileMetaM × List DecodeEffect :=
  match lookupMeta embeds filePath with
  | none => (none, [])
  | some m => (some m, [])

/-- `Embeds.get`: `null` for a missing key, otherwise construct a `File`
(eager base64 decode). -/
def Embeds.get (embeds : Embeds) (filePath : String) :
    Except RuntimeErr (Option File × List DecodeEffect) :=
  match lookupMeta embeds filePath with
  | none => .ok (none, [])
  | some m =>
      match fileOfMeta m with
      | none => .error .badBase64
      | some fe => .ok (some fe.1, fe.2)

/-- `Embeds.load`: unlike `get` and `stat` it has no null check, so an
unknown path calls an `undefined` importer and throws a `TypeError` at
runtime (the method's typing restricts callers to known keys at compile
time). -/
def Embeds.load (embeds : Embeds) (filePath : String) :
    Except RuntimeErr (File × List DecodeEffect) :=
  match lookupMeta embeds filePath with
  | none => .error .typeErrorUndefinedCall
  | some m =>
      match fileOfMeta m with
      | none => .error .badBase64
      | some fe => .ok fe

/-! ## Conditional responder (`serveFile`, `serveDir`, src/file_server.ts) -/

/-- Suffix test on strings by their character lists. -/
def strEndsWith (s suf : String) : Bool := suf.toList.isSuffixOf s.toList

/-- JavaScript whitespace trimmed by `String.trim` (the common subset). -/
def isJsWs (c : Char) : Bool :=
  c = ' ' || c = '\t' || c = '\n' || c = '\r' || c = '\x0c' || c = '\x0b'

/-- Model of `String.trim`. -/
def strTrim (s : String) : String :=
  String.mk (((s.toList.dropWhile isJsWs).reverse.dropWhile isJsWs).reverse)

/-- Strip a weak-validator marker from an entity tag. -/
def stripWeak (s : String) : String :=
  if strStartsWith s "W/" then String.mk (s.toList.drop 2) else s

/-- Modelled from the spec: the weak-or-strong ETag comparison used by the
conditional check (the std `ifNoneMatch` helper, external to this
repository).  `true` means "proceed with a normal response"; `false` means
the `if-none-match` value matched the stored tag (a `*` value matches any
tag, and weak markers are ignored on both sides). -/
def ifNoneMatchFn (value : Option String) (etag : Option String) : Bool :=
  match value, etag with
  | none, _ => true
  | _, none => true
  | some v, some e =>
      if v = "" ∨ e = "" then true
      else if strTrim v = "*" then false
      else
        let e2 := stripWeak e
        let tags := (splitChar ',' v).map (fun t => stripWeak (strTrim t))
        !(tags.contains e2)

/-- The relevant headers of an incoming request, plus its URL pathname. -/
structure RequestM where
  pathname : String
  ifNoneMatch : Option String := none
  ifModifiedSince : Option String := none
deriving DecidableEq

/-- Response bodies: `null`, status text, or the file bytes. -/
inductive BodyM
  | empty
  | text (s : String)
  | bytes (bs : List Nat)
deriving DecidableEq

/-- An HTTP response: status, body, and its header list. -/
structure ResponseM where
  status : Nat
  body : BodyM
  headers : List (String × String)
deriving DecidableEq

/-- Canonical status text. -/
def statusTextOf : Nat → String
  | 200 => "OK"
  | 301 => "Moved Permanently"
  | 304 => "Not Modified"
  | 400 => "Bad Request"
  | 404 => "Not Found"
  | 500 => "Internal Server Error"
  | _ => ""

/-- `createStandardResponse`: the status text as body, no explicit headers
(implicit platform headers of the `Response` constructor are outside the
model). -/
def standardResponse (status : Nat) : ResponseM :=
  { status := status, body := .text (statusTextOf status), headers := [] }

/-- `Headers.set`: replace an existing value or append the pair. -/
def setHeader (hs : List (String × String)) (k v : String) : List (String × String) :=
  if hs.any (fun p => p.1 == k) then hs.map (fun p => if p.1 == k then (k, v) else p)
  else hs ++ [(k, v)]

/-- Header presence. -/
def hasHeader (hs : List (String × String)) (k : String) : Bool :=
  hs.any (fun p => p.1 == k)

/-- `createBaseHeaders`. -/
def baseHeaders : List (String × String) :=
  [("server", "deno"), ("accept-ranges", "bytes")]

/-- External platform and library functions the responder calls: gzip
decompression, UTF-8 decoding, MIME lookup by extension, HTTP-date parsing
(`new Date(s).getTime()`, `none` for `NaN`), UTC date formatting, and
percent-decoding (`decodeURIComponent`, `none` for a thrown `URIError`). -/
structure ServeEnv where
  decompressFn : String → List Nat → List Nat
  utf8Decode : List Nat → String
  contentTypeFn : String → Option String
  parseDate : String → Option Int
  fmtTime : Int → String
  percentDecode : String → Option String

/-- Model of the posix `extname`: the suffix of the base name from its last
dot, empty when there is no dot or the dot leads the base name. -/
def extnameOf (p : String) : String :=
  let base := ((splitSlash p).getLast?).getD ""
  let rev := base.toList.reverse
  let after := rev.takeWhile (fun c => c ≠ '.')
  if rev.length ≤ after.length then ""
  else if after.length + 1 = rev.length then ""
  else String.mk ('.' :: after.reverse)

/-- JavaScript truthiness of an optional string (the empty string is
falsy). -/
def truthyStr : Option String → Bool
  | some s => s ≠ ""
  | none => false

/-- Validator headers of `serveFile`: base headers, then `date` from the
access time, `last-modified` from the modification time, `etag` from the
tag (empty-string tags are falsy and not set). -/
def condHeaders (env : ServeEnv) (meta : FileMetaM) : List (String × String) :=
  let headers1 := match meta.atime with
    | some t => setHeader baseHeaders "date" (env.fmtTime t)
    | none => baseHeaders
  let headers2 := match meta.mtime with
    | some t => setHeader headers1 "last-modified" (env.fmtTime t)
    | none => headers1
  match meta.eTag with
  | some e => if e = "" then headers2 else setHeader headers2 "etag" e
  | none => headers2

/-- The `if-modified-since` comparison of `serveFile`: the stored
modification time is earlier than the parsed requested time plus 1000 ms
(an unparsable date compares as `NaN` and never matches). -/
def imsMatches (parseDate : String → Option Int) (mtime : Option Int)
    (ims : Option String) : Bool :=
  match mtime, ims with
  | some mt, some s =>
      (match parseDate s with
       | some t => decide (mt < t + 1000)
       | none => false)
  | _, _ => false

/-- The conditional disjunction of `serveFile`: an `if-none-match` match,
or — only when no `if-none-match` header is present — an
`if-modified-since` match. -/
def condMatches (env : ServeEnv) (req : RequestM) (meta : FileMetaM) : Bool :=
  (!ifNoneMatchFn req.ifNoneMatch meta.eTag) ||
  (req.ifNoneMatch.isNone && imsMatches env.parseDate meta.mtime req.ifModifiedSince)

/-- Content headers of a 200 response: content type when the extension is
known, and the content length from the uncompressed size. -/
def contentHeaders (env : ServeEnv) (filePath : String) (meta : FileMetaM)
    (hs : List (String × String)) : List (String × String) :=
  let headers4 := match env.contentTypeFn (extnameOf filePath) with
    | some ct => if ct = "" then hs else setHeader hs "content-type" ct
    | none => hs
  setHeader headers4 "content-length" (Nat.repr meta.size)

/-- `serveFile`: resolve the metadata (given or via `stat`; 404 when
absent), build validator headers, run the conditional check (304 with a
null body on a hit, guarded on a truthy ETag or a present modification
time), otherwise set content headers and answer 200 with the decoded
bytes. -/
def serveFile (env : ServeEnv) (embeds : Embeds) (req : RequestM) (filePath : String)
    (optMeta : Option FileMetaM) : Except RuntimeErr ResponseM :=
  match (match optMeta with | some m => some m | none => (Embeds.stat embeds filePath).1) with
  | none => .ok (standardResponse 404)
  | some meta =>
      if (truthyStr meta.eTag || meta.mtime.isSome) && condMatches env req meta
      then .ok { status := 304, body := .empty, headers := condHeaders env meta }
      else
        match Embeds.get embeds filePath with
        | .error e => .error e
        | .ok (none, _) => .ok (standardResponse 404)
        | .ok (some f, _) =>
            .ok { status := 200
                , body := .bytes (File.bytes env.decompressFn f).1
                , headers := contentHeaders env filePath meta (condHeaders env meta) }

/-- Normalization of a request path, model of the std posix `normalize`:
collapse repeated separators, resolve dot and dot-dot segments (an absolute
path cannot climb above the root), preserve a trailing separator. -/
def posixNormalizeStr (p : String) : String :=
  let isAbs := strStartsWith p "/"
  let trailing := strEndsWith p "/"
  let resolved := (splitSlash p).foldl
    (fun acc seg =>
      if seg = "" ∨ seg = "." then acc
      else if seg = ".." then
        (if isAbs then acc.dropLast
         else match acc.getLast? with
           | some last => if last = ".." then acc ++ [".."] else acc.dropLast
           | none => acc ++ [".."])
      else acc ++ [seg]) []
  let s1 := joinSegs resolved
  let s2 := if s1 = "" ∧ ¬isAbs then "." else s1
  let s3 := if s2 ≠ "" ∧ trailing then s2 ++ "/" else s2
  if isAbs then "/" ++ s3 else s3

/-- The configured-prefix test of `createServeDirResponse`: with a
`urlRoot`, a normalized path that does not start with it is not served. -/
def urlRootMismatch (urlRoot : Option String) (normalizedPath : String) : Bool :=
  match urlRoot with
  | some r => !(strStartsWith normalizedPath ("/" ++ r))
  | none => false

/-- Remove the first occurrence of a pattern, model of the string form of
`String.replace(pattern, "")`. -/
def removeFirstList (pat : List Char) : List Char → List Char
  | [] => []
  | c :: rest =>
      if pat.isPrefixOf (c :: rest) then (c :: rest).drop pat.length
      else c :: removeFirstList pat rest

/-- Remove the first occurrence of a pattern from a string. -/
def removeFirstOcc (s pat : String) : String :=
  String.mk (removeFirstList pat.toList s.toList)

/-- Model of the posix `join` of the target root and the request path. -/
def posixJoin (a b : String) : String :=
  if a = "" ∧ b = "" then "."
  else if a = "" then posixNormalizeStr b
  else if b = "" then posixNormalizeStr a
  else posixNormalizeStr (a ++ "/" ++ b)

/-- `serveDir` options. -/
structure ServeDirOptionsM where
  fsRoot : Option String := none
  urlRoot : Option String := none
  enableCors : Bool := false
  headers : Option (List (String × String)) := none
deriving DecidableEq

/-- `createServeDirResponse`: percent-decode the path (a `URIError`
propagates), check the configured prefix (404 on mismatch), redirect
permanently when normalization changed the path, otherwise strip the
prefix, append the default document for a directory path, join with the
target root and serve the file. -/
def createServeDirResponse (env : ServeEnv) (embeds : Embeds) (req : RequestM)
    (opts : ServeDirOptionsM) : Except RuntimeErr ResponseM :=
  match env.percentDecode req.pathname with
  | none => .error .uriError
  | some decodedUrl =>
      let normalizedPath := posixNormalizeStr decodedUrl
      if urlRootMismatch opts.urlRoot normalizedPath then .ok (standardResponse 404)
      else if normalizedPath ≠ decodedUrl then
        .ok { status := 301, body := .empty, headers := [("location", normalizedPath)] }
      else
        let p1 := match opts.urlRoot with
          | some r => removeFirstOcc normalizedPath r
          | none => normalizedPath
        let p2 := if strEndsWith p1 "/" then p1 ++ "index.html"
                  else if p1 = "/" then "/index.html" else p1
        let fsPath := posixJoin ((opts.fsRoot).getD ".") p2
        serveFile env embeds req fsPath (Embeds.stat embeds fsPath).1

/-- `serveFallback`: a `URIError` is a client error; the store's runtime
failures are neither a `URIError` nor a `Deno.errors.NotFound`, so they map
to 500. -/
def serveFallback : RuntimeErr → ResponseM
  | .uriError => standardResponse 400
  | _ => standardResponse 500

/-- Redirect statuses. -/
def isRedirectStatus (n : Nat) : Bool :=
  n = 301 || n = 302 || n = 303 || n = 307 || n = 308

/-- `serveDir`: run the directory responder, map a thrown error through the
fallback, then append CORS and caller-supplied headers — but never onto a
redirect response. -/
def serveDirM (env : ServeEnv) (embeds : Embeds) (req : RequestM)
    (opts : ServeDirOptionsM) : ResponseM :=
  let response := match createServeDirResponse env embeds req opts with
    | .ok r => r
    | .error e => serveFallback e
  let isRedirect := isRedirectStatus response.status
  let response2 := if opts.enableCors && !isRedirect then
      { response with headers := response.headers ++
          [("access-control-allow-origin", "*"),
           ("access-control-allow-headers",
            "Origin, X-Requested-With, Content-Type, Accept, Range")] }
    else response
  match opts.headers with
  | some hs =>
      if !isRedirect then { response2 with headers := response2.headers ++ hs }
      else response2
  | none => response2

/-- C3: a request whose `if-none-match` header matches the stored ETag (per
the weak-or-strong comparison) receives 304 with an empty body, and when an
`if-none-match` header is present the response never depends on the
`if-modified-since` header — that header is consulted only when
`if-none-match` is absent. -/
theorem serveFile_ifNoneMatch_precedence
    (env : ServeEnv) (embeds : Embeds) (req : RequestM) (filePath : String)
    (meta : FileMetaM) (v e : String)
    (hv : req.ifNoneMatch = some v)
    (he : meta.eTag = some e) :
    (ifNoneMatchFn req.ifNoneMatch meta.eTag = false →
      ∃ hs, serveFile env embeds req filePath (some meta) =
        .ok { status := 304, body := .empty, headers := hs }) ∧
    (∀ ims1 ims2 : Option String,
      serveFile env embeds { req with ifModifiedSince := ims1 } filePath (some meta) =
      serveFile env embeds { req with ifModifiedSince := ims2 } filePath (some meta)) := by
  constructor
  · intro hm
    have hne : ¬(v = "" ∨ e = "") := by
      intro hcontra
      rw [hv, he] at hm
      simp [ifNoneMatchFn, hcontra] at hm
    have he2 : e ≠ "" := fun hc => hne (Or.inr hc)
    have hm2 : ifNoneMatchFn req.ifNoneMatch (some e) = false := by
      rw [← he]; exact hm
    have hguard : ((truthyStr meta.eTag || meta.mtime.isSome) &&
        condMatches env req meta) = true := by
      rw [he]
      simp [truthyStr, he2, condMatches, he, hm2]
    refine ⟨condHeaders env meta, ?_⟩
    simp only [serveFile, hguard, reduceIte]
  · intro ims1 ims2
    simp only [serveFile, condMatches, hv, Option.isNone_some, Bool.false_and,
      Bool.or_false]

/-! ### Header lemmas and test fixtures -/

theorem any_key_map_set (t : List (String × String)) (k v k' : String)
    (hkk : (k == k') = false) :
    (t.map (fun p => if p.1 == k then (k, v) else p)).any (fun p => p.1 == k') =
    t.any (fun p => p.1 == k') := by
  induction t with
  | nil => rfl
  | cons p t ih =>
      simp only [List.map_cons, List.any_cons, ih]
      by_cases hpk : (p.1 == k) = true
      · have hp1 : p.1 = k := by simpa using hpk
        rw [if_pos hpk]
        simp [hp1, hkk]
      · rw [if_neg hpk]

theorem hasHeader_setHeader (hs : List (String × String)) (k v k' : String)
    (hne : k' ≠ k) :
    hasHeader (setHeader hs k v) k' = hasHeader hs k' := by
  have hkk : (k == k') = false := by
    simp only [beq_eq_false_iff_ne, ne_eq]
    exact fun hcontra => hne hcontra.symm
  unfold setHeader hasHeader
  by_cases hany : hs.any (fun p => p.1 == k) = true
  · rw [if_pos hany]
    exact any_key_map_set hs k v k' hkk
  · rw [if_neg hany]
    simp [List.any_append, hkk]

/-- A trivial environment for concrete evaluations: identity decompression,
identity percent-decoding, no MIME table, no parsable dates. -/
def testEnv : ServeEnv :=
  { decompressFn := fun _ l => l
  , utf8Decode := fun _ => ""
  , contentTypeFn := fun _ => none
  , parseDate := fun _ => none
  , fmtTime := fun _ => "t"
  , percentDecode := fun s => some s }

/-- Witness for C3: a request whose `if-none-match` equals the stored tag
gets 304, and with `if-none-match` present the response is the same whether
or not an `if-modified-since` header is sent. -/
theorem serveFile_ifNoneMatch_precedence_witness :
    (∃ hs, serveFile testEnv []
        { pathname := "/f", ifNoneMatch := some "abc", ifModifiedSince := some "x" }
        "f" (some { size := 0, encoded := [], eTag := some "abc" }) =
      .ok { status := 304, body := .empty, headers := hs }) ∧
    serveFile testEnv []
        { pathname := "/f", ifNoneMatch := some "abc", ifModifiedSince := some "x" }
        "f" (some { size := 0, encoded := [], eTag := some "abc" }) =
      serveFile testEnv []
        { pathname := "/f", ifNoneMatch := some "abc", ifModifiedSince := none }
        "f" (some { size := 0, encoded := [], eTag := some "abc" }) := by
  have h := serveFile_ifNoneMatch_precedence testEnv []
    { pathname := "/f", ifNoneMatch := some "abc", ifModifiedSince := some "x" }
    "f" { size := 0, encoded := [], eTag := some "abc" } "abc" "abc" rfl rfl
  exact ⟨h.1 (by decide), h.2 (some "x") none⟩

/-- C7 (amended): with only an `if-modified-since` header (no
`if-none-match`) and a stored modification time, 304 is returned exactly
when the stored time is strictly earlier than the parsed requested time
plus 1000 ms; a requested time strictly after `mtime - 1s` yields 304, and
a requested time at or before `mtime - 1s` — including exactly
`mtime - 1s` — yields 200 with the full decoded body. -/
theorem serveFile_ims_boundary
    (env : ServeEnv) (embeds : Embeds) (req : RequestM) (filePath : String)
    (meta : FileMetaM) (mt : Int) (ims : String) (t : Int)
    (hinm : req.ifNoneMatch = none)
    (hmt : meta.mtime = some mt)
    (hims : req.ifModifiedSince = some ims)
    (hparse : env.parseDate ims = some t) :
    (mt < t + 1000 →
      ∃ hs, serveFile env embeds req filePath (some meta) =
        .ok { status := 304, body := .empty, headers := hs }) ∧
    (t + 1000 ≤ mt →
      ∀ f eff, Embeds.get embeds filePath = .ok (some f, eff) →
        ∃ hs, serveFile env embeds req filePath (some meta) =
          .ok { status := 200
              , body := .bytes (File.bytes env.decompressFn f).1
              , headers := hs }) := by
  constructor
  · intro hlt
    have hguard : ((truthyStr meta.eTag || meta.mtime.isSome) &&
        condMatches env req meta) = true := by
      simp [condMatches, hinm, hmt, hims, imsMatches, hparse, hlt, ifNoneMatchFn]
    refine ⟨condHeaders env meta, ?_⟩
    simp only [serveFile, hguard, reduceIte]
  · intro hge f eff hget
    have hnot : ¬(mt < t + 1000) := by omega
    have hguard : ((truthyStr meta.eTag || meta.mtime.isSome) &&
        condMatches env req meta) = false := by
      simp [condMatches, hinm, hmt, hims, imsMatches, hparse, hnot, ifNoneMatchFn]
    refine ⟨contentHeaders env filePath meta (condHeaders env meta), ?_⟩
    simp only [serveFile, hguard, Bool.false_eq_true, if_false, hget]

/-- C7 counterexample: the stored modification time is 1000000 ms and the
request's `if-modified-since` parses to exactly 999000 ms = mtime − 1s; the
claim's first half says this boundary yields 304, but the strict comparison
`mtime < ims + 1000` fails at equality and the responder returns 200. -/
theorem serveFile_ims_boundary_counterexample :
    (serveFile
        { testEnv with parseDate := fun _ => some 999000 }
        [("f", { size := 1, encoded := encodeBase64 [65], mtime := some 1000000 })]
        { pathname := "/f", ifModifiedSince := some "x" }
        "f"
        (some { size := 1, encoded := encodeBase64 [65], mtime := some 1000000 })).map
      ResponseM.status = .ok 200 := rfl

/-- Witness for C7 (amended): at one millisecond after `mtime - 1s` the
responder returns 304; at exactly `mtime - 1s` it returns 200 with the full
decoded body. -/
theorem serveFile_ims_boundary_witness :
    (∃ hs, serveFile
        { testEnv with parseDate := fun _ => some 999001 }
        [("f", { size := 1, encoded := encodeBase64 [65], mtime := some 1000000 })]
        { pathname := "/f", ifModifiedSince := some "x" }
        "f"
        (some { size := 1, encoded := encodeBase64 [65], mtime := some 1000000 }) =
      .ok { status := 304, body := .empty, headers := hs }) ∧
    (∃ hs, serveFile
        { testEnv with parseDate := fun _ => some 999000 }
        [("f", { size := 1, encoded := encodeBase64 [65], mtime := some 1000000 })]
        { pathname := "/f", ifModifiedSince := some "x" }
        "f"
        (some { size := 1, encoded := encodeBase64 [65], mtime := some 1000000 }) =
      .ok { status := 200, body := .bytes [65], headers := hs }) := by
  constructor
  · exact (serveFile_ims_boundary
      { testEnv with parseDate := fun _ => some 999001 }
      [("f", { size := 1, encoded := encodeBase64 [65], mtime := some 1000000 })]
      { pathname := "/f", ifModifiedSince := some "x" }
      "f" { size := 1, encoded := encodeBase64 [65], mtime := some 1000000 }
      1000000 "x" 999001 rfl rfl rfl rfl).1 (by decide)
  · exact (serveFile_ims_boundary
      { testEnv with parseDate := fun _ => some 999000 }
      [("f", { size := 1, encoded := encodeBase64 [65], mtime := some 1000000 })]
      { pathname := "/f", ifModifiedSince := some "x" }
      "f" { size := 1, encoded := encodeBase64 [65], mtime := some 1000000 }
      1000000 "x" 999000 rfl rfl rfl rfl).2 (by decide)
      { size := 1, contents := { bytes := [65], compression := none } }
      [.base64Decode] rfl

/-- C6 (amended): when the configured url-root prefix check passes (in
particular when no prefix is configured), any request whose percent-decoded
path differs from its posix normalization receives a 301 permanent redirect
to the normalized location; the prefix check, however, runs first, so a
request failing it gets 404 even when normalization would change the
path. -/
theorem serveDir_redirect_on_normalization
    (env : ServeEnv) (embeds : Embeds) (req : RequestM) (opts : ServeDirOptionsM)
    (decoded : String)
    (hdec : env.percentDecode req.pathname = some decoded)
    (hroot : urlRootMismatch opts.urlRoot (posixNormalizeStr decoded) = false)
    (hdiff : posixNormalizeStr decoded ≠ decoded) :
    serveDirM env embeds req opts =
      { status := 301, body := .empty
      , headers := [("location", posixNormalizeStr decoded)] } := by
  have hcsd : createServeDirResponse env embeds req opts =
      .ok { status := 301, body := .empty
          , headers := [("location", posixNormalizeStr decoded)] } := by
    simp only [createServeDirResponse, hdec, hroot, Bool.false_eq_true, if_false,
      ne_eq, hdiff, not_false_eq_true, if_true]
  simp only [serveDirM, hcsd, isRedirectStatus]
  cases opts.headers <;> simp

/-- C6 counterexample: with a configured url root `"static"`, the request
`/a//b` (whose decoded path differs from its normalization `/a/b`) against
a store containing the key `a/b` is answered with a direct 404 from the
prefix check, not with the claimed 301. -/
theorem serveDir_redirect_counterexample :
    serveDirM testEnv
      [("a/b", { size := 1, encoded := encodeBase64 [66] })]
      { pathname := "/a//b" }
      { urlRoot := some "static" } =
    standardResponse 404 := rfl

/-- Witness for C6 (amended): with no configured prefix, `/a//b` against a
store containing `a/b` redirects permanently to `/a/b`. -/
theorem serveDir_redirect_witness :
    serveDirM testEnv
      [("a/b", { size := 1, encoded := encodeBase64 [66] })]
      { pathname := "/a//b" } {} =
    { status := 301, body := .empty, headers := [("location", "/a/b")] } := by
  exact serveDir_redirect_on_normalization testEnv
    [("a/b", { size := 1, encoded := encodeBase64 [66] })]
    { pathname := "/a//b" } {} "/a//b" rfl rfl (by decide)

/-- C9 counterexample: `load` has no null check, so on an unknown path it
calls an `undefined` importer and throws a `TypeError` instead of returning
the not-found sentinel the claim promises for all three lookups. -/
theorem load_unknown_path_throws :
    Embeds.load [] "missing" = .error .typeErrorUndefinedCall := rfl

/-- C9 (amended): for a path absent from the registry, `stat` and `get`
never throw and return the not-found sentinel; `load` (typed to known keys)
throws on an unknown path at runtime; and the responder answers 404 with no
ETag and no Last-Modified header. -/
theorem unknown_path_behavior
    (env : ServeEnv) (embeds : Embeds) (req : RequestM) (p : String)
    (h : lookupMeta embeds p = none) :
    (Embeds.stat embeds p).1 = none ∧
    Embeds.get embeds p = .ok (none, []) ∧
    Embeds.load embeds p = .error .typeErrorUndefinedCall ∧
    serveFile env embeds req p none = .ok (standardResponse 404) ∧
    hasHeader (standardResponse 404).headers "etag" = false ∧
    hasHeader (standardResponse 404).headers "last-modified" = false := by
  refine ⟨?_, ?_, ?_, ?_, rfl, rfl⟩
  · simp [Embeds.stat, h]
  · simp [Embeds.get, h]
  · simp [Embeds.load, h]
  · simp [serveFile, Embeds.stat, h]

/-- Witness for C9 (amended) on the empty registry and the path
`"missing"`. -/
theorem unknown_path_behavior_witness :
    (Embeds.stat ([] : Embeds) "missing").1 = none ∧
    Embeds.get ([] : Embeds) "missing" = .ok (none, []) ∧
    Embeds.load ([] : Embeds) "missing" = .error .typeErrorUndefinedCall ∧
    serveFile testEnv [] { pathname := "/missing" } "missing" none =
      .ok (standardResponse 404) ∧
    hasHeader (standardResponse 404).headers "etag" = false ∧
    hasHeader (standardResponse 404).headers "last-modified" = false :=
  unknown_path_behavior testEnv [] { pathname := "/missing" } "missing" rfl

theorem condHeaders_of_no_validators (env : ServeEnv) (meta : FileMetaM)
    (he : meta.eTag = none) (hm : meta.mtime = none) (ha : meta.atime = none) :
    condHeaders env meta = baseHeaders := by
  simp [condHeaders, he, hm, ha]

theorem contentHeaders_no_validators (env : ServeEnv) (filePath : String)
    (meta : FileMetaM) (k : String)
    (hk1 : k ≠ "content-type") (hk2 : k ≠ "content-length")
    (hbase : hasHeader baseHeaders k = false) :
    hasHeader (contentHeaders env filePath meta baseHeaders) k = false := by
  unfold contentHeaders
  cases hct : env.contentTypeFn (extnameOf filePath) with
  | none =>
      show hasHeader (setHeader baseHeaders "content-length" (Nat.repr meta.size)) k = false
      rw [hasHeader_setHeader _ _ _ _ hk2]
      exact hbase
  | some ct =>
      show hasHeader (setHeader
        (if ct = "" then baseHeaders else setHeader baseHeaders "content-type" ct)
        "content-length" (Nat.repr meta.size)) k = false
      by_cases he : ct = ""
      · rw [if_pos he, hasHeader_setHeader _ _ _ _ hk2]
        exact hbase
      · rw [if_neg he, hasHeader_setHeader _ _ _ _ hk2,
          hasHeader_setHeader _ _ _ _ hk1]
        exact hbase

/-- C10: the writer emits records with only a size, an optional compression
tag and the encoded payload — never an ETag or timestamps — so every
response served from such a record skips the conditional block (its status
is never 304) and carries no `etag`, `last-modified` or `date` header. -/
theorem generated_meta_no_validators
    (compressFn : List Nat → List Nat) (data : List Nat)
    (env : ServeEnv) (embeds : Embeds) (req : RequestM) (filePath : String)
    (r : ResponseM)
    (h : serveFile env embeds req filePath (some (writeFileMeta compressFn data)) = .ok r) :
    (writeFileMeta compressFn data).eTag = none ∧
    (writeFileMeta compressFn data).mtime = none ∧
    (writeFileMeta compressFn data).atime = none ∧
    r.status ≠ 304 ∧
    hasHeader r.headers "etag" = false ∧
    hasHeader r.headers "last-modified" = false ∧
    hasHeader r.headers "date" = false := by
  have he : (writeFileMeta compressFn data).eTag = none := rfl
  have hm : (writeFileMeta compressFn data).mtime = none := rfl
  have ha : (writeFileMeta compressFn data).atime = none := rfl
  have hguard : ((truthyStr (writeFileMeta compressFn data).eTag ||
      (writeFileMeta compressFn data).mtime.isSome) &&
      condMatches env req (writeFileMeta compressFn data)) = false := by
    rw [he, hm]
    simp [truthyStr]
  simp only [serveFile, hguard, Bool.false_eq_true, if_false] at h
  refine ⟨he, hm, ha, ?_⟩
  cases hget : Embeds.get embeds filePath with
  | error e => rw [hget] at h; simp at h
  | ok pr =>
      obtain ⟨f?, eff⟩ := pr
      rw [hget] at h
      cases f? with
      | none =>
          simp only [Except.ok.injEq] at h
          subst h
          exact ⟨by decide, rfl, rfl, rfl⟩
      | some f =>
          simp only [Except.ok.injEq] at h
          subst h
          rw [condHeaders_of_no_validators env _ he hm ha]
          refine ⟨?_, ?_, ?_, ?_⟩
          · show (200 : Nat) ≠ 304
            decide
          · exact contentHeaders_no_validators env filePath _ "etag"
              (by decide) (by decide) (by decide)
          · exact contentHeaders_no_validators env filePath _ "last-modified"
              (by decide) (by decide) (by decide)
          · exact contentHeaders_no_validators env filePath _ "date"
              (by decide) (by decide) (by decide)

/-- Witness for C10: serving a freshly generated record for the byte `65`
yields 200 with only server, accept-ranges and content-length headers. -/
theorem generated_meta_no_validators_witness :
    (writeFileMeta (fun l => l) [65]).eTag = none ∧
    (writeFileMeta (fun l => l) [65]).mtime = none ∧
    (writeFileMeta (fun l => l) [65]).atime = none ∧
    ({ status := 200, body := .bytes [65]
     , headers := [("server", "deno"), ("accept-ranges", "bytes"),
                   ("content-length", "1")] } : ResponseM).status ≠ 304 ∧
    hasHeader [("server", "deno"), ("accept-ranges", "bytes"),
               ("content-length", "1")] "etag" = false ∧
    hasHeader [("server", "deno"), ("accept-ranges", "bytes"),
               ("content-length", "1")] "last-modified" = false ∧
    hasHeader [("server", "deno"), ("accept-ranges", "bytes"),
               ("content-length", "1")] "date" = false :=
  generated_meta_no_validators (fun l => l) [65] testEnv
    [("f", writeFileMeta (fun l => l) [65])] { pathname := "/f" } "f"
    { status := 200, body := .bytes [65]
    , headers := [("server", "deno"), ("accept-ranges", "bytes"),
                  ("content-length", "1")] } rfl

/-- C8: `stat` performs no decoding work at all; on a compressed `File`,
`bytes()` decompresses exactly once — on the first call — and every
repeated call on the resulting instance returns the same content with no
further work and no state change; `text()` caches its decoding, so a
repeated call returns the same string with no further work. -/
theorem store_laziness_caching
    (dec : String → List Nat → List Nat) (utf8 : List Nat → String)
    (embeds : Embeds) (p : String) (f : File) (tag : String)
    (htag : f.contents.compression = some tag) (hne : tag ≠ "") :
    (Embeds.stat embeds p).2 = [] ∧
    (File.bytes dec f).2.2 = [.decompress] ∧
    (File.bytes dec (File.bytes dec f).2.1).1 = (File.bytes dec f).1 ∧
    (File.bytes dec (File.bytes dec f).2.1).2.2 = [] ∧
    (File.bytes dec (File.bytes dec f).2.1).2.1 = (File.bytes dec f).2.1 ∧
    (File.text dec utf8 (File.text dec utf8 f).2.1).1 = (File.text dec utf8 f).1 ∧
    (File.text dec utf8 (File.text dec utf8 f).2.1).2.2 = [] := by
  refine ⟨?_, ?_, ?_, ?_, ?_, ?_, ?_⟩
  · cases hlm : lookupMeta embeds p <;> simp [Embeds.stat, hlm]
  · simp [File.bytes, htag, hne]
  · simp [File.bytes, htag, hne]
  · simp [File.bytes, htag, hne]
  · simp [File.bytes, htag, hne]
  · cases hct : f.cachedText with
    | some t => simp [File.text, hct]
    | none => simp [File.text, hct, File.bytes, htag, hne]
  · cases hct : f.cachedText with
    | some t => simp [File.text, hct]
    | none => simp [File.text, hct, File.bytes, htag, hne]

/-- Witness for C8 on a concrete compressed file. -/
theorem store_laziness_caching_witness :
    (Embeds.stat ([] : Embeds) "a").2 = [] ∧
    (File.bytes (fun _ l => l)
      { size := 1, contents := { bytes := [7], compression := some "gzip" } }).2.2 =
      [.decompress] ∧
    (File.bytes (fun _ l => l) (File.bytes (fun _ l => l)
      { size := 1, contents := { bytes := [7], compression := some "gzip" } }).2.1).1 =
      (File.bytes (fun _ l => l)
      { size := 1, contents := { bytes := [7], compression := some "gzip" } }).1 ∧
    (File.bytes (fun _ l => l) (File.bytes (fun _ l => l)
      { size := 1, contents := { bytes := [7], compression := some "gzip" } }).2.1).2.2 =
      [] ∧
    (File.bytes (fun _ l => l) (File.bytes (fun _ l => l)
      { size := 1, contents := { bytes := [7], compression := some "gzip" } }).2.1).2.1 =
      (File.bytes (fun _ l => l)
      { size := 1, contents := { bytes := [7], compression := some "gzip" } }).2.1 ∧
    (File.text (fun _ l => l) (fun _ => "x") (File.text (fun _ l => l) (fun _ => "x")
      { size := 1, contents := { bytes := [7], compression := some "gzip" } }).2.1).1 =
      (File.text (fun _ l => l) (fun _ => "x")
      { size := 1, contents := { bytes := [7], compression := some "gzip" } }).1 ∧
    (File.text (fun _ l => l) (fun _ => "x") (File.text (fun _ l => l) (fun _ => "x")
      { size := 1, contents := { bytes := [7], compression := some "gzip" } }).2.1).2.2 =
      [] :=
  store_laziness_caching (fun _ l => l) (fun _ => "x") [] "a"
    { size := 1, contents := { bytes := [7], compression := some "gzip" } }
    "gzip" rfl (by decide)

/-- C4: the encoder selects the compressed candidate and tags the record
with the compression algorithm exactly when the byte gain reaches the
200-byte threshold (199 bytes of gain select raw storage and omit the tag);
`size` is always the uncompressed length; and the encoded payload decodes
to the compressed bytes when the tag is present, otherwise to the raw
bytes. -/
theorem writeFileMeta_selection
    (compressFn : List Nat → List Nat) (data : List Nat)
    (hd : ∀ x ∈ data, x < 256) (hc : ∀ x ∈ compressFn data, x < 256) :
    ((writeFileMeta compressFn data).compression = some "gzip" ↔
      minCompressionGainBytes ≤ (data.length : Int) - ((compressFn data).length : Int)) ∧
    (¬ minCompressionGainBytes ≤ (data.length : Int) - ((compressFn data).length : Int) →
      (writeFileMeta compressFn data).compression = none) ∧
    (writeFileMeta compressFn data).size = data.length ∧
    decodeBase64M (writeFileMeta compressFn data).encoded =
      some (if minCompressionGainBytes ≤
              (data.length : Int) - ((compressFn data).length : Int)
            then compressFn data else data) := by
  by_cases hsel : minCompressionGainBytes ≤
      (data.length : Int) - ((compressFn data).length : Int)
  · refine ⟨by simp [writeFileMeta, hsel], fun hcontra => absurd hsel hcontra, rfl, ?_⟩
    rw [if_pos hsel]
    show decodeBase64M ('\n' :: wrapChars (encodeBase64
      (if minCompressionGainBytes ≤
          (data.length : Int) - ((compressFn data).length : Int)
       then compressFn data else data))) = some (compressFn data)
    rw [if_pos hsel]
    exact decodeBase64M_encode_wrapped _ hc
  · refine ⟨by simp [writeFileMeta, hsel], fun _ => by simp [writeFileMeta, hsel], rfl, ?_⟩
    rw [if_neg hsel]
    show decodeBase64M ('\n' :: wrapChars (encodeBase64
      (if minCompressionGainBytes ≤
          (data.length : Int) - ((compressFn data).length : Int)
       then compressFn data else data))) = some data
    rw [if_neg hsel]
    exact decodeBase64M_encode_wrapped _ hd

/-- Witness for C4 at the threshold: 200 bytes of gain select compression,
199 bytes do not; the size is always the raw length. -/
theorem writeFileMeta_selection_witness :
    (writeFileMeta (fun _ => []) (List.replicate 200 7)).compression = some "gzip" ∧
    (writeFileMeta (fun _ => []) (List.replicate 199 7)).compression = none ∧
    (writeFileMeta (fun _ => []) (List.replicate 200 7)).size = 200 := by
  have hmem200 : ∀ x ∈ List.replicate 200 (7 : Nat), x < 256 := by
    intro x hx
    have := List.eq_of_mem_replicate hx
    omega
  have hmem199 : ∀ x ∈ List.replicate 199 (7 : Nat), x < 256 := by
    intro x hx
    have := List.eq_of_mem_replicate hx
    omega
  have hempty : ∀ x ∈ ([] : List Nat), x < 256 := by simp
  have h200 := writeFileMeta_selection (fun _ => []) (List.replicate 200 7) hmem200 hempty
  have h199 := writeFileMeta_selection (fun _ => []) (List.replicate 199 7) hmem199 hempty
  refine ⟨h200.1.mpr ?_, h199.2.1 ?_, ?_⟩
  · show minCompressionGainBytes ≤
      ((List.replicate 200 (7 : Nat)).length : Int) - ((([] : List Nat)).length : Int)
    rw [List.length_replicate]
    norm_num [minCompressionGainBytes]
  · show ¬ minCompressionGainBytes ≤
      ((List.replicate 199 (7 : Nat)).length : Int) - ((([] : List Nat)).length : Int)
    rw [List.length_replicate]
    norm_num [minCompressionGainBytes]
  · rw [h200.2.2.1, List.length_replicate]

/-- C1: encoding a byte buffer (compute the gzip candidate, select it iff
the gain threshold is met, base64-encode, wrap at 120 columns with the
leading template newline) and loading it back (base64-decode the stored
string, decompress iff the compression tag is present) returns exactly the
original buffer, given that the platform decompressor inverts the
compressor on it; and the 120-column wrapping has no effect on the decoded
bytes. -/
theorem encode_decode_roundtrip
    (compressFn : List Nat → List Nat) (decompressFn : String → List Nat → List Nat)
    (b : List Nat)
    (hb : ∀ x ∈ b, x < 256) (hc : ∀ x ∈ compressFn b, x < 256)
    (hinv : decompressFn "gzip" (compressFn b) = b) :
    ((fileOfMeta (writeFileMeta compressFn b)).map
        (fun fe => (File.bytes decompressFn fe.1).1)) = some b ∧
    decodeBase64M (writeFileMeta compressFn b).encoded =
      decodeBase64M (encodeBase64
        (if minCompressionGainBytes ≤ (b.length : Int) - ((compressFn b).length : Int)
         then compressFn b else b)) := by
  by_cases hsel : minCompressionGainBytes ≤ (b.length : Int) - ((compressFn b).length : Int)
  · have hdec : decodeBase64M (writeFileMeta compressFn b).encoded = some (compressFn b) := by
      show decodeBase64M ('\n' :: wrapChars (encodeBase64
        (if minCompressionGainBytes ≤ (b.length : Int) - ((compressFn b).length : Int)
         then compressFn b else b))) = some (compressFn b)
      rw [if_pos hsel]
      exact decodeBase64M_encode_wrapped _ hc
    have hcomp : (writeFileMeta compressFn b).compression = some "gzip" := by
      simp [writeFileMeta, hsel]
    constructor
    · rw [fileOfMeta, hdec, hcomp]
      simp [File.bytes, hinv]
    · rw [hdec, if_pos hsel, decodeBase64M_encode_plain _ hc]
  · have hdec : decodeBase64M (writeFileMeta compressFn b).encoded = some b := by
      show decodeBase64M ('\n' :: wrapChars (encodeBase64
        (if minCompressionGainBytes ≤ (b.length : Int) - ((compressFn b).length : Int)
         then compressFn b else b))) = some b
      rw [if_neg hsel]
      exact decodeBase64M_encode_wrapped _ hb
    have hcomp : (writeFileMeta compressFn b).compression = none := by
      simp [writeFileMeta, hsel]
    constructor
    · rw [fileOfMeta, hdec, hcomp]
      simp [File.bytes]
    · rw [hdec, if_neg hsel, decodeBase64M_encode_plain _ hb]

/-- Witness for C1 on the empty buffer and a two-byte buffer, with the
identity compressor (gain 0, raw storage selected). -/
theorem encode_decode_roundtrip_witness :
    ((fileOfMeta (writeFileMeta (fun l => l) [])).map
        (fun fe => (File.bytes (fun _ l => l) fe.1).1)) = some [] ∧
    ((fileOfMeta (writeFileMeta (fun l => l) [104, 105])).map
        (fun fe => (File.bytes (fun _ l => l) fe.1).1)) = some [104, 105] :=
  ⟨(encode_decode_roundtrip (fun l => l) (fun _ l => l) [] (by decide) (by decide) rfl).1,
   (encode_decode_roundtrip (fun l => l) (fun _ l => l) [104, 105]
      (by decide) (by decide) rfl).1⟩

/-- Witness for C5 (amended) on the colliding inputs `"a b"` and `"a_b"`
under the root `/d`: after the first file is placed and written, the second
write fails with the collision error naming both originals and leaves the
writer state unchanged. -/
theorem collision_second_write_fails_witness :
    writeFile (fun l => l)
      { destDir := ["d"]
      , files := [{ original := "a b", relative := "a b",
                    importPath := "./_a_b.ts", onDisk := ["d", "_a_b.ts"] }]
      , written := [(["d", "_a_b.ts"], writeFileMeta (fun l => l) [49])] }
      "a_b" [50] =
      ({ destDir := ["d"]
       , files := [{ original := "a b", relative := "a b",
                     importPath := "./_a_b.ts", onDisk := ["d", "_a_b.ts"] }]
       , written := [(["d", "_a_b.ts"], writeFileMeta (fun l => l) [49])] },
       some (.nameCollision "a b" "a_b" ["d", "_a_b.ts"])) ∧
    ({ destDir := ["d"]
     , files := [{ original := "a b", relative := "a b",
                   importPath := "./_a_b.ts", onDisk := ["d", "_a_b.ts"] }]
     , written := [(["d", "_a_b.ts"], writeFileMeta (fun l => l) [49])] }
       : WriterState).written =
      ([] : List (List String × FileMetaM)) ++
        [(["d", "_a_b.ts"], writeFileMeta (fun l => l) [49])] :=
  collision_second_write_fails (fun l => l) { destDir := ["d"] } "a b" "a_b" [49] [50]
    { original := "a b", relative := "a b",
      importPath := "./_a_b.ts", onDisk := ["d", "_a_b.ts"] }
    { original := "a_b", relative := "a_b",
      importPath := "./_a_b.ts", onDisk := ["d", "_a_b.ts"] }
    { destDir := ["d"]
    , files := [{ original := "a b", relative := "a b",
                  importPath := "./_a_b.ts", onDisk := ["d", "_a_b.ts"] }]
    , written := [(["d", "_a_b.ts"], writeFileMeta (fun l => l) [49])] }
    rfl rfl rfl rfl rfl
